import Mathlib

/-!
Verification development for the fast-css-split-webpack-plugin repository.

The JavaScript source (src/lib/index.js) is shallowly embedded below:
pure helpers become Lean functions, the mutable webpack asset table
becomes an explicit `String → Option Artifact` map threaded through the
processing functions, and the mutable chunk file array becomes a
`List String`.  The external `css-split` dependency is not part of the
repository; it is modelled from the specification (see `cssSplit`).
The external `loader-utils` name interpolator is kept abstract as a
function parameter `interp`.
-/

/-! ## Characters used by the scanner (named to keep literals tame) -/

def braceOpen : Char := Char.ofNat 123

def braceClose : Char := Char.ofNat 125

def quoteD : Char := Char.ofNat 34

def quoteS : Char := Char.ofNat 39

def backslashC : Char := Char.ofNat 92

/-! ## Splitter, modelled from the spec

Modelled from the spec: the `split` function of the external `css-split`
dependency (required at src/lib/index.js line 4) is not part of this
repository.  Per spec section 4.1 it performs a single linear scan of the
stylesheet text, tracking brace-nesting depth while ignoring braces inside
string and comment literals; a rule ends at a top-level closing brace or a
top-level semicolon; when the current segment's rule count reaches the
maximum the segment is closed and a new one begins, with inter-rule
whitespace attached to the following rule.  Unmatched closing braces are
treated gracefully (best effort, never throwing). -/

inductive ScanMode where
  | top
  | slash
  | str (q : Char)
  | strEsc (q : Char)
  | comment
  | commentStar
deriving DecidableEq, Repr

/-- One top-level scanning step: given the current character and brace
depth, produce the next mode, next depth, and whether a rule just ended. -/
def stepTop (c : Char) (depth : Nat) : ScanMode × Nat × Bool :=
  if c = '/' then (ScanMode.slash, depth, false)
  else if c = quoteD ∨ c = quoteS then (ScanMode.str c, depth, false)
  else if c = braceOpen then (ScanMode.top, depth + 1, false)
  else if c = braceClose then
    if depth = 1 then (ScanMode.top, 0, true)
    else (ScanMode.top, depth - 1, false)
  else if c = ';' then
    if depth = 0 then (ScanMode.top, 0, true) else (ScanMode.top, depth, false)
  else (ScanMode.top, depth, false)

/-- Full scanner step covering string literals, comments and the
one-character lookbehind used to recognise comment openers. -/
def scanStep (m : ScanMode) (c : Char) (depth : Nat) : ScanMode × Nat × Bool :=
  match m with
  | ScanMode.str q =>
    if c = backslashC then (ScanMode.strEsc q, depth, false)
    else if c = q then (ScanMode.top, depth, false)
    else (ScanMode.str q, depth, false)
  | ScanMode.strEsc q => (ScanMode.str q, depth, false)
  | ScanMode.comment =>
    if c = '*' then (ScanMode.commentStar, depth, false)
    else (ScanMode.comment, depth, false)
  | ScanMode.commentStar =>
    if c = '/' then (ScanMode.top, depth, false)
    else if c = '*' then (ScanMode.commentStar, depth, false)
    else (ScanMode.comment, depth, false)
  | ScanMode.slash =>
    if c = '*' then (ScanMode.comment, depth, false)
    else stepTop c depth
  | ScanMode.top => stepTop c depth

/-- Core of the splitter: consume the input character by character,
accumulating the current segment and the completed segments. -/
def splitCore (max : Nat) : List Char → ScanMode → Nat → Nat → List Char →
    List (List Char) → List (List Char)
  | [], _, _, _, cur, segs => if cur = [] then segs else segs ++ [cur]
  | c :: rest, m, depth, count, cur, segs =>
    let t := scanStep m c depth
    if t.2.2 = true then
      if max ≤ count + 1 then
        splitCore max rest t.1 t.2.1 0 [] (segs ++ [cur ++ [c]])
      else
        splitCore max rest t.1 t.2.1 (count + 1) (cur ++ [c]) segs
    else
      splitCore max rest t.1 t.2.1 count (cur ++ [c]) segs

/-- Modelled from the spec: `split(text, maxRuleCount)` returns the
ordered list of stylesheet segments. -/
def cssSplit (text : String) (max : Nat) : List String :=
  (splitCore max text.data ScanMode.top 0 0 [] []).map (fun cs => String.mk cs)

/-! ## String helpers from src/lib/index.js -/

/-- Translation of `isCSS` (line 13): the regular expression test
`/\.css$/.test(name)` holds exactly when the name ends in ".css". -/
def isCSS (name : String) : Bool := List.isSuffixOf ".css".data name.data

/-- Translation of `strip` (line 20): `str.replace(/\/$/, '')` removes a
single trailing slash when one is present. -/
def strip (s : String) : String :=
  if s.data.getLast? = some '/' then String.mk s.data.dropLast else s

/-- Translation of the JavaScript `publicPath.startsWith('.')` test
(line 154). -/
def startsWithDot (s : String) : Bool := s.data.head? = some '.'

/-- Translation of `.replace(/\[part\]/g, rep)` (line 35): a global,
left-to-right, non-overlapping replacement of the literal pattern
`[part]`; the replacement text is not rescanned. -/
def replacePart (rep : List Char) : List Char → List Char
  | '[' :: 'p' :: 'a' :: 'r' :: 't' :: ']' :: rest => rep ++ replacePart rep rest
  | c :: rest => c :: replacePart rep rest
  | [] => []

/-- String-level wrapper for `replacePart`. -/
def replacePartStr (s rep : String) : String := String.mk (replacePart rep.data s.data)

/-- Helper for `dirname`: walk the characters in reverse (paired with the
original index, stopping before index 0), skipping trailing slashes, then
skipping the final path component, and report the index of the slash that
precedes it — the end of the directory part.  Mirrors the loop of Node's
`path.posix.dirname`. -/
def findDirEnd : List Char → Nat → Bool → Option Nat
  | [], _, _ => none
  | c :: rest, i, matched =>
    if i = 0 then none
    else if c = '/' then
      if matched then findDirEnd rest (i - 1) matched else some i
    else findDirEnd rest (i - 1) false

/-- Translation of Node's `path.dirname` for POSIX paths, used at
src/lib/index.js line 106. -/
def dirname (p : String) : String :=
  if p.data.length = 0 then "."
  else
    let cs := p.data
    let hasRoot := cs.headD ' ' = '/'
    match findDirEnd cs.reverse (cs.length - 1) true with
    | none => if hasRoot then "/" else "."
    | some e => if hasRoot ∧ e = 1 then "//" else String.mk (cs.take e)

/-! ## Data model -/

/-- A webpack `Source` object as the plugin observes it: `source()` and
`_value` both return the content string (`RawSource` stores the string it
was constructed with). -/
structure Artifact where
  content : String
deriving DecidableEq, Repr

/-- A split part as built in `file` (lines 113-118): a `RawSource` with
the part's content, plus the `name` and `fullname` fields attached to it. -/
structure PartFile where
  content : String
  name : String
  fullname : String
deriving DecidableEq, Repr

/-- The value returned by `file` (lines 120-124). -/
structure Entry where
  dirname : String
  file : String
  chunks : List PartFile
deriving DecidableEq, Repr

/-- The compilation state mutated by `chunksMapping`: the asset table
(`compilation.assets`) and the current chunk's file list (`chunk.files`). -/
structure RwState where
  assets : String → Option Artifact
  files : List String

/-- JavaScript object assignment `assets[k] = v`. -/
def setAsset (t : String → Option Artifact) (k : String) (v : Artifact) :
    String → Option Artifact :=
  fun q => if q = k then some v else t q

/-- JavaScript `delete assets[k]`. -/
def delAsset (t : String → Option Artifact) (k : String) :
    String → Option Artifact :=
  fun q => if q = k then none else t q

/-- Translation of `chunk.files.splice(chunk.files.indexOf(x), 1)`
(line 165): when `x` is present the first occurrence is removed; when it
is absent `indexOf` yields `-1` and `splice(-1, 1)` removes the LAST
element of the array. -/
def spliceIndexOf (l : List String) (x : String) : List String :=
  if x ∈ l then l.erase x else l.dropLast

/-! ## Configuration -/

/-- The runtime type of the `imports` constructor argument.  JavaScript
distinguishes strings and booleans; a function or any other value falls
into the `default` branch of the `switch` in `normalizeImports`. -/
inductive ImportsArg where
  | str (s : String)
  | bool (b : Bool)
  | fnVal
  | otherVal
deriving DecidableEq, Repr

/-- The error thrown by `normalizeImports` (line 59): `new TypeError()`. -/
inductive ConfigError where
  | typeError
deriving DecidableEq, Repr

/-- Defunctionalised result of `normalizeImports` (lines 46-61): the
returned closure is one of three shapes — a name interpolator for a
template, the identity on the entry's file name, or the constant `false`. -/
inductive ImportsMode where
  | interpolator (template : String)
  | fileName
  | disabled
deriving DecidableEq, Repr

/-- Translation of `normalizeImports` (lines 46-61). -/
def normalizeImports (input : ImportsArg) (preserve : Bool) :
    Except ConfigError ImportsMode :=
  match input with
  | ImportsArg.str s => Except.ok (ImportsMode.interpolator s)
  | ImportsArg.bool b =>
    if b then
      if preserve then Except.ok (ImportsMode.interpolator "[name]-split.[ext]")
      else Except.ok ImportsMode.fileName
    else Except.ok ImportsMode.disabled
  | _ => Except.error ConfigError.typeError

/-- The raw constructor argument object (lines 80-86).  `preserve` has no
default in the source; an absent value is `undefined`, which every use
site treats as boolean false, so it is modelled as `Bool`. -/
structure RawConfig where
  size : Nat
  imports : ImportsArg
  filename : String
  preserve : Bool
  defer : Bool
deriving DecidableEq, Repr

/-- Normalised `this.options` (lines 87-93), with the two name closures
defunctionalised (the filename closure is fully determined by its
template). -/
structure NOptions where
  size : Nat
  imports : ImportsMode
  filename : String
  preserve : Bool
deriving DecidableEq, Repr

/-- Translation of the constructor (lines 80-94): `normalizeImports` runs
during construction and its `TypeError` propagates synchronously. -/
def mkPlugin (cfg : RawConfig) : Except ConfigError NOptions :=
  match normalizeImports cfg.imports cfg.preserve with
  | Except.error e => Except.error e
  | Except.ok m => Except.ok ⟨cfg.size, m, cfg.filename, cfg.preserve⟩

/-! ## Name interpolation -/

/-- The context object handed to a name closure: `file`, `content`, and
`index` (absent — `undefined` — at the imports call site, line 171). -/
structure NameCtx where
  file : String
  content : String
  index : Option Nat

/-- JavaScript `index + 1` under the replacement coercion: a number when
`index` is defined, the string "NaN" when it is `undefined`. -/
def partIndexStr : Option Nat → String
  | some i => toString (i + 1)
  | none => "NaN"

/-- Translation of `nameInterpolator` (lines 29-37): call the external
`interpolateName` with context `/` and resource path `/<file>`, then
replace every `[part]` with the 1-based part number.  The external
`loader-utils` collaborator is abstract: `interp resourcePath template
content` gives its result. -/
def nameInterpolatorFn (interp : String → String → String → String)
    (template : String) (ctx : NameCtx) : String :=
  replacePartStr (interp ("/" ++ ctx.file) template ctx.content)
    (partIndexStr ctx.index)

/-- The directory-prefixing used at lines 116 and 175-177:
`d && d !== '.' ? d + '/' + s : s`. -/
def dirJoin (d s : String) : String :=
  if d ≠ "" ∧ d ≠ "." then d ++ "/" ++ s else s

/-! ## Processing -/

/-- Translation of `FastCSSSplitWebpackPlugin.file` (lines 102-125).  The
asset's content is read once; each split part is wrapped in a `RawSource`
carrying its interpolated `name` (content argument is the WHOLE source)
and its directory-prefixed `fullname`. -/
def fileSplit (interp : String → String → String → String) (opts : NOptions)
    (key : String) (content : String) : Entry :=
  let dn := dirname key
  let parts := (cssSplit content opts.size).mapIdx (fun i part =>
    let nm := nameInterpolatorFn interp opts.filename ⟨key, content, some i⟩
    { content := part, name := nm, fullname := dirJoin dn nm : PartFile })
  ⟨dn, key, parts⟩

/-- Translation of the part-injection loop (lines 146-149): register each
part under its fullname and push the fullname onto the chunk's file list. -/
def injectParts (parts : List PartFile) (st : RwState) : RwState :=
  parts.foldl
    (fun st f =>
      { assets := setAsset st.assets f.fullname ⟨f.content⟩,
        files := st.files ++ [f.fullname] })
    st

/-- Translation of one generated import statement (lines 152-158). -/
def importLine (publicPath : String) (f : PartFile) : String :=
  if startsWithDot publicPath = true then
    "@import \"./" ++ f.name ++ "\";"
  else
    "@import \"" ++ publicPath ++ "/" ++ f.fullname ++ "\";"

/-- Translation of the imports-content construction (lines 151-159):
one import line per part, joined with newlines. -/
def aggregationContent (publicPath : String) (parts : List PartFile) : String :=
  String.intercalate "\n" (parts.map (importLine publicPath))

/-- The `importsFile` local of `chunksMapping` (lines 137-161): the single
part itself when no split happened, otherwise a fresh `RawSource` holding
the aggregation content. -/
def importsFileOf (publicPath : String) (e : Entry) : Artifact :=
  if e.chunks.length = 1 then
    ⟨((e.chunks.head?).map PartFile.content).getD ""⟩
  else ⟨aggregationContent publicPath e.chunks⟩

/-- Translation of the original-asset removal (lines 163-167): only when a
split happened and `preserve` is falsy. -/
def preserveStep (preserve : Bool) (e : Entry) (st : RwState) : RwState :=
  if e.chunks.length > 1 ∧ preserve = false then
    { assets := delAsset st.assets e.file,
      files := spliceIndexOf st.files e.file }
  else st

/-- The name produced by `this.options.imports(...)` (lines 171-173):
`false` is `none`; the context carries the entry's `file` and the imports
file's content, with `index` undefined. -/
def importsName (interp : String → String → String → String)
    (mode : ImportsMode) (e : Entry) (content : String) : Option String :=
  match mode with
  | ImportsMode.disabled => none
  | ImportsMode.fileName => some e.file
  | ImportsMode.interpolator t =>
    some (nameInterpolatorFn interp t ⟨e.file, content, none⟩)

/-- The name under which the imports artifact is actually registered, if
any: the `if (imports)` truthiness test rejects `false` and the empty
string, and the surviving name is directory-prefixed (lines 174-177). -/
def importsRegisteredName (interp : String → String → String → String)
    (mode : ImportsMode) (e : Entry) (content : String) : Option String :=
  match importsName interp mode e content with
  | none => none
  | some s => if s = "" then none else some (dirJoin e.dirname s)

/-- Translation of the imports-registration step (lines 169-180). -/
def importsStep (interp : String → String → String → String)
    (mode : ImportsMode) (e : Entry) (importsFile : Artifact)
    (st : RwState) : RwState :=
  match importsName interp mode e importsFile.content with
  | none => st
  | some s =>
    if s = "" then st
    else
      let full := dirJoin e.dirname s
      { assets := setAsset st.assets full importsFile,
        files := st.files ++ [full] }

/-- Translation of the body of the per-entry `forEach` in `chunksMapping`
(lines 135-181), in source order: inject the parts when more than one,
determine the imports file, conditionally drop the original, then apply
the imports policy. -/
def processEntry (interp : String → String → String → String)
    (opts : NOptions) (publicPath : String) (st : RwState) (e : Entry) :
    RwState :=
  let st1 := if e.chunks.length = 1 then st else injectParts e.chunks st
  let importsFile := importsFileOf publicPath e
  let st2 := preserveStep opts.preserve e st1
  importsStep interp opts.imports e importsFile st2

/-- The selection of a chunk's stylesheet assets (line 132):
`chunk.files.filter(isCSS)`. -/
def chunkCssInput (files : List String) : List String := files.filter isCSS

/-- The content handed to `file` for an asset name: `assets[name].source()`.
A missing entry would be a manifest-inconsistency crash in JavaScript
(spec section 7, a precondition violation); the model totalises it with
the empty string, which no claim exercises. -/
def sourceOf (a : Option Artifact) : String :=
  match a with
  | some x => x.content
  | none => ""

/-- Translation of the per-chunk body of `chunksMapping` (lines 131-181):
the CSS file names are selected and split against the table as it stands
at the start of the chunk, then each entry is applied in order. -/
def processChunk (interp : String → String → String → String)
    (opts : NOptions) (publicPath : String)
    (assets : String → Option Artifact) (files : List String) :
    (String → Option Artifact) × List String :=
  let input := chunkCssInput files
  let entries := input.map (fun name => fileSplit interp opts name (sourceOf (assets name)))
  let st := entries.foldl (processEntry interp opts publicPath) ⟨assets, files⟩
  (st.assets, st.files)

/-- JavaScript `x || d` on an optional string: `undefined` and the empty
string are both falsy. -/
def jsOrDefault (o : Option String) (d : String) : String :=
  match o with
  | none => d
  | some s => if s = "" then d else s

/-- The public path computed once per invocation (line 129):
`strip(compilation.options.output.publicPath || './')`. -/
def effectivePublicPath (cfg : Option String) : String :=
  strip (jsOrDefault cfg "./")

/-- Translation of `chunksMapping` (lines 127-185): process every chunk in
order against the shared asset table, returning the final table and each
chunk's final file list. -/
def chunksMapping (interp : String → String → String → String)
    (opts : NOptions) (publicPathCfg : Option String)
    (assets : String → Option Artifact) (chunks : List (List String)) :
    (String → Option Artifact) × List (List String) :=
  let publicPath := effectivePublicPath publicPathCfg
  chunks.foldl
    (fun acc files =>
      let r := processChunk interp opts publicPath acc.1 files
      (r.1, acc.2 ++ [r.2]))
    (assets, [])

/-! ## Concrete sample inputs shared by witnesses and counterexamples -/

/-- A concrete instance of the external `interpolateName` collaborator:
on a template containing none of the placeholders `loader-utils`
understands, `interpolateName` returns the template verbatim, which this
function models for such templates. -/
def interpId : String → String → String → String := fun _ t _ => t

/-- A stylesheet with two top-level rules, `a{}b{}`. -/
def cssTwoRules : String := "a\x7b\x7db\x7b\x7d"

/-- A one-asset table: `styles.css` holding the two-rule stylesheet. -/
def tableA : String → Option Artifact :=
  fun k => if k = "styles.css" then some ⟨cssTwoRules⟩ else none

/-- A two-asset table mixing a stylesheet and a script. -/
def tableB : String → Option Artifact :=
  fun k =>
    if k = "a.css" then some ⟨cssTwoRules⟩
    else if k = "app.js" then some ⟨"var x;"⟩
    else none

/-! ## Helper lemmas -/

theorem mk_append_mk (xs ys : List Char) :
    String.mk xs ++ String.mk ys = String.mk (xs ++ ys) := rfl

theorem foldl_append_map_mk : ∀ (l : List (List Char)) (a : List Char),
    List.foldl (fun r s => r ++ s) (String.mk a) (l.map String.mk) =
      String.mk (a ++ l.flatten) := by
  intro l
  induction l with
  | nil => intro a; simp
  | cons x xs ih =>
    intro a
    simp only [List.map_cons, List.foldl_cons, mk_append_mk, List.flatten_cons]
    rw [ih]
    simp

theorem string_join_map_mk (l : List (List Char)) :
    String.join (l.map String.mk) = String.mk l.flatten := by
  have h := foldl_append_map_mk l []
  simpa [String.join] using h

theorem splitCore_flatten (max : Nat) : ∀ (input : List Char) (m : ScanMode)
    (depth count : Nat) (cur : List Char) (segs : List (List Char)),
    (splitCore max input m depth count cur segs).flatten =
      segs.flatten ++ cur ++ input := by
  intro input
  induction input with
  | nil =>
    intro m depth count cur segs
    by_cases h : cur = [] <;> simp [splitCore, h]
  | cons c rest ih =>
    intro m depth count cur segs
    simp only [splitCore]
    split
    · split
      · rw [ih]; simp
      · rw [ih]; simp
    · rw [ih]; simp

theorem injectParts_files : ∀ (parts : List PartFile) (st : RwState),
    (injectParts parts st).files = st.files ++ parts.map PartFile.fullname := by
  intro parts
  induction parts with
  | nil => intro st; simp [injectParts]
  | cons p ps ih =>
    intro st
    simp only [injectParts, List.foldl_cons] at ih ⊢
    rw [ih]
    simp

theorem injectParts_assets_frame : ∀ (parts : List PartFile) (st : RwState)
    (k : String), k ∉ parts.map PartFile.fullname →
    (injectParts parts st).assets k = st.assets k := by
  intro parts
  induction parts with
  | nil => intro st k _; rfl
  | cons p ps ih =>
    intro st k hk
    simp only [List.map_cons, List.mem_cons, not_or] at hk
    simp only [injectParts, List.foldl_cons] at ih ⊢
    rw [ih _ _ hk.2]
    simp [setAsset, hk.1]

theorem injectParts_assets_mem : ∀ (parts : List PartFile) (st : RwState)
    (p : PartFile), (parts.map PartFile.fullname).Nodup → p ∈ parts →
    (injectParts parts st).assets p.fullname = some ⟨p.content⟩ := by
  intro parts
  induction parts with
  | nil => intro st p _ hp; cases hp
  | cons q qs ih =>
    intro st p hnd hp
    simp only [List.map_cons, List.nodup_cons] at hnd
    rcases List.mem_cons.mp hp with h | h
    · subst h
      simp only [injectParts, List.foldl_cons]
      rw [show (qs.foldl _ _) = injectParts qs _ from rfl,
        injectParts_assets_frame qs _ _ hnd.1]
      simp [setAsset]
    · simp only [injectParts, List.foldl_cons]
      exact ih _ _ hnd.2 h

theorem importsStep_of_none (interp : String → String → String → String)
    (mode : ImportsMode) (e : Entry) (a : Artifact) (st : RwState)
    (h : importsRegisteredName interp mode e a.content = none) :
    importsStep interp mode e a st = st := by
  unfold importsStep
  unfold importsRegisteredName at h
  cases hn : importsName interp mode e a.content with
  | none => rfl
  | some s =>
    rw [hn] at h
    by_cases hs : s = ""
    · simp [hs]
    · simp [hs] at h

theorem importsStep_of_some (interp : String → String → String → String)
    (mode : ImportsMode) (e : Entry) (a : Artifact) (st : RwState)
    (full : String)
    (h : importsRegisteredName interp mode e a.content = some full) :
    importsStep interp mode e a st =
      { assets := setAsset st.assets full a, files := st.files ++ [full] } := by
  unfold importsStep
  unfold importsRegisteredName at h
  cases hn : importsName interp mode e a.content with
  | none => rw [hn] at h; cases h
  | some s =>
    rw [hn] at h
    by_cases hs : s = ""
    · simp [hs] at h
    · simp only [hs, if_neg hs, ite_false] at h ⊢
      simp only [Option.some.injEq] at h
      subst h
      rfl

theorem preserveStep_of_removing (preserve : Bool) (e : Entry) (st : RwState)
    (hlen : 1 < e.chunks.length) (hp : preserve = false) :
    preserveStep preserve e st =
      { assets := delAsset st.assets e.file,
        files := spliceIndexOf st.files e.file } := by
  unfold preserveStep
  rw [if_pos ⟨hlen, hp⟩]

theorem preserveStep_of_keeping (preserve : Bool) (e : Entry) (st : RwState)
    (h : ¬(1 < e.chunks.length ∧ preserve = false)) :
    preserveStep preserve e st = st := by
  unfold preserveStep
  rw [if_neg h]

/-! ## Claim theorems -/

/-- C9: for every stylesheet text T and every positive limit L,
concatenating in order all segments returned by splitting T with limit L
reproduces T exactly. -/
theorem c9_split_roundtrip (T : String) (L : Nat) (hL : 0 < L) :
    String.join (cssSplit T L) = T := by
  unfold cssSplit
  rw [show ((splitCore L T.data ScanMode.top 0 0 [] []).map fun cs => String.mk cs)
      = (splitCore L T.data ScanMode.top 0 0 [] []).map String.mk from rfl,
    string_join_map_mk, splitCore_flatten]
  rfl

/-- Witness for C9 at a concrete two-rule stylesheet and limit 1. -/
theorem c9_split_roundtrip_witness :
    0 < 1 ∧ String.join (cssSplit cssTwoRules 1) = cssTwoRules :=
  ⟨Nat.one_pos, c9_split_roundtrip cssTwoRules 1 Nat.one_pos⟩

/-- C3: construction fails with a TypeError exactly when the `imports`
configuration value is neither a string nor a boolean (e.g. a function);
for every string or boolean value construction succeeds.  The validation
happens inside `mkPlugin` itself, i.e. synchronously at construction
time, before any processing function is invoked. -/
theorem c3_imports_validation (cfg : RawConfig) :
    (mkPlugin cfg = Except.error ConfigError.typeError ↔
      cfg.imports = ImportsArg.fnVal ∨ cfg.imports = ImportsArg.otherVal) ∧
    ((∃ opts, mkPlugin cfg = Except.ok opts) ↔
      (∃ s, cfg.imports = ImportsArg.str s) ∨ (∃ b, cfg.imports = ImportsArg.bool b)) := by
  cases h : cfg.imports with
  | str s =>
    simp [mkPlugin, normalizeImports, h]
  | bool b =>
    cases b <;> by_cases hp : cfg.preserve <;>
      simp [mkPlugin, normalizeImports, h, hp]
  | fnVal => simp [mkPlugin, normalizeImports, h]
  | otherVal => simp [mkPlugin, normalizeImports, h]

/-- Witness for C3: a function-typed `imports` value is rejected with a
TypeError at construction. -/
theorem c3_imports_validation_witness :
    mkPlugin ⟨4000, ImportsArg.fnVal, "[name]-[part].[ext]", false, false⟩ =
      Except.error ConfigError.typeError :=
  (c3_imports_validation ⟨4000, ImportsArg.fnVal, "[name]-[part].[ext]", false, false⟩).1.mpr
    (Or.inl rfl)

/-- C5: a generated import statement references "./<name>" when the
effective public path (the configured base with one trailing slash
stripped, defaulting to "./" hence ".") starts with a dot, and
"<base>/<fullpath>" otherwise; with no configured base the relative
form is used. -/
theorem c5_import_reference (cfg : Option String) (f : PartFile) :
    (startsWithDot (effectivePublicPath cfg) = true →
      importLine (effectivePublicPath cfg) f = "@import \"./" ++ f.name ++ "\";") ∧
    (startsWithDot (effectivePublicPath cfg) = false →
      importLine (effectivePublicPath cfg) f =
        "@import \"" ++ effectivePublicPath cfg ++ "/" ++ f.fullname ++ "\";") ∧
    (cfg = none → startsWithDot (effectivePublicPath cfg) = true) := by
  refine ⟨fun h => ?_, fun h => ?_, fun h => ?_⟩
  · simp [importLine, h]
  · simp [importLine, h]
  · subst h; decide

/-- Witness for C5 with the absolute base "/foo". -/
theorem c5_import_reference_witness :
    importLine (effectivePublicPath (some "/foo")) ⟨"x", "part-1.css", "part-1.css"⟩ =
      "@import \"" ++ effectivePublicPath (some "/foo") ++ "/" ++ "part-1.css" ++ "\";" :=
  (c5_import_reference (some "/foo") ⟨"x", "part-1.css", "part-1.css"⟩).2.1 (by decide)

/-- C6: part i (0-based) is named by interpolating the filename template
and replacing the part placeholder with the 1-based number i+1; its full
path prefixes the asset's directory exactly when that directory is
non-empty and not "."; and the injection step registers every part under
its full path and appends the full paths to the chunk's file list in part
order (the asset-table fact assumes the produced full paths are
pairwise distinct, since a later duplicate would overwrite an earlier
part). -/
theorem c6_part_naming (interp : String → String → String → String)
    (opts : NOptions) (key content : String) (st : RwState)
    (hnodup : ((fileSplit interp opts key content).chunks.map PartFile.fullname).Nodup) :
    (∀ i (h : i < (fileSplit interp opts key content).chunks.length),
      ((fileSplit interp opts key content).chunks.get ⟨i, h⟩).name =
        replacePartStr (interp ("/" ++ key) opts.filename content) (toString (i + 1)) ∧
      ((fileSplit interp opts key content).chunks.get ⟨i, h⟩).fullname =
        dirJoin (dirname key)
          (((fileSplit interp opts key content).chunks.get ⟨i, h⟩).name)) ∧
    (injectParts (fileSplit interp opts key content).chunks st).files =
      st.files ++ (fileSplit interp opts key content).chunks.map PartFile.fullname ∧
    (∀ p ∈ (fileSplit interp opts key content).chunks,
      (injectParts (fileSplit interp opts key content).chunks st).assets p.fullname =
        some ⟨p.content⟩) := by
  refine ⟨fun i h => ?_, injectParts_files _ _,
    fun p hp => injectParts_assets_mem _ _ _ hnodup hp⟩
  constructor
  · simp [fileSplit, List.get_eq_getElem, List.getElem_mapIdx,
      nameInterpolatorFn, partIndexStr]
  · simp [fileSplit, List.get_eq_getElem, List.getElem_mapIdx]

/-- Witness for C6 on a directory-prefixed asset split into two parts. -/
theorem c6_part_naming_witness :
    (injectParts
        (fileSplit interpId ⟨1, ImportsMode.disabled, "part-[part].css", false⟩
          "sub/dir/styles.css" cssTwoRules).chunks
        ⟨tableA, ["sub/dir/styles.css"]⟩).files =
      ["sub/dir/styles.css"] ++
        ((fileSplit interpId ⟨1, ImportsMode.disabled, "part-[part].css", false⟩
          "sub/dir/styles.css" cssTwoRules).chunks.map PartFile.fullname) :=
  (c6_part_naming interpId ⟨1, ImportsMode.disabled, "part-[part].css", false⟩
    "sub/dir/styles.css" cssTwoRules ⟨tableA, ["sub/dir/styles.css"]⟩
    (by decide)).2.1

/-- C4: when a split produces more than one segment, the aggregation
artifact's content is exactly the newline-joined sequence of import
statements, one per split part, in part order; and whenever the imports
policy registers the aggregation artifact, the asset stored under the
registered name is exactly that artifact. -/
theorem c4_aggregation_content (interp : String → String → String → String)
    (opts : NOptions) (pp : String) (st : RwState) (e : Entry)
    (hlen : 1 < e.chunks.length) :
    (importsFileOf pp e).content =
      String.intercalate "\n" (e.chunks.map (importLine pp)) ∧
    (e.chunks.map (importLine pp)).length = e.chunks.length ∧
    (∀ full, importsRegisteredName interp opts.imports e
        (importsFileOf pp e).content = some full →
      (processEntry interp opts pp st e).assets full = some (importsFileOf pp e)) := by
  have hne : e.chunks.length ≠ 1 := by omega
  have hagg : importsFileOf pp e = ⟨aggregationContent pp e.chunks⟩ := by
    unfold importsFileOf
    rw [if_neg hne]
  refine ⟨by rw [hagg]; rfl, by simp, fun full hreg => ?_⟩
  simp only [processEntry]
  rw [importsStep_of_some _ _ _ _ _ _ hreg]
  simp [setAsset]

/-- Witness for C4: a two-part split with default imports registers the
two-line aggregation under the original name. -/
theorem c4_aggregation_content_witness :
    (importsFileOf "/foo"
        (fileSplit interpId ⟨1, ImportsMode.fileName, "part-[part].css", false⟩
          "styles.css" cssTwoRules)).content =
      String.intercalate "\n"
        ((fileSplit interpId ⟨1, ImportsMode.fileName, "part-[part].css", false⟩
          "styles.css" cssTwoRules).chunks.map (importLine "/foo")) :=
  (c4_aggregation_content interpId ⟨1, ImportsMode.fileName, "part-[part].css", false⟩
    "/foo" ⟨tableA, ["styles.css"]⟩
    (fileSplit interpId ⟨1, ImportsMode.fileName, "part-[part].css", false⟩
      "styles.css" cssTwoRules)
    (by decide)).1

/-- C8: with the imports policy disabled no aggregation name is ever
produced, and processing an entry is exactly the part-injection step
followed by the preserve step — the imports-registration step contributes
nothing to the asset table or to any chunk file list. -/
theorem c8_imports_disabled (interp : String → String → String → String)
    (opts : NOptions) (pp : String)
    (himp : opts.imports = ImportsMode.disabled) :
    (∀ e c, importsRegisteredName interp opts.imports e c = none) ∧
    ∀ st e, processEntry interp opts pp st e =
      preserveStep opts.preserve e
        (if e.chunks.length = 1 then st else injectParts e.chunks st) := by
  constructor
  · intro e c
    simp [importsRegisteredName, importsName, himp]
  · intro st e
    unfold processEntry
    rw [importsStep_of_none]
    simp [importsRegisteredName, importsName, himp]

/-- Witness for C8 on a concrete split entry. -/
theorem c8_imports_disabled_witness :
    processEntry interpId ⟨1, ImportsMode.disabled, "part-[part].css", false⟩ "/foo"
        ⟨tableA, ["styles.css"]⟩
        (fileSplit interpId ⟨1, ImportsMode.disabled, "part-[part].css", false⟩
          "styles.css" cssTwoRules) =
      preserveStep false
        (fileSplit interpId ⟨1, ImportsMode.disabled, "part-[part].css", false⟩
          "styles.css" cssTwoRules)
        (if (fileSplit interpId ⟨1, ImportsMode.disabled, "part-[part].css", false⟩
              "styles.css" cssTwoRules).chunks.length = 1 then
          ⟨tableA, ["styles.css"]⟩
        else
          injectParts
            (fileSplit interpId ⟨1, ImportsMode.disabled, "part-[part].css", false⟩
              "styles.css" cssTwoRules).chunks ⟨tableA, ["styles.css"]⟩) :=
  (c8_imports_disabled interpId ⟨1, ImportsMode.disabled, "part-[part].css", false⟩
    "/foo" rfl).2 ⟨tableA, ["styles.css"]⟩ _

/-- Counterexample to C1 as stated: with `imports` enabled (`imports:
true`, normalised to the entry-file-name policy) and `preserve` falsy, an
asset whose split yields exactly one segment still has a name appended to
its chunk's file list — the imports policy registers the single-segment
artifact under the original name and pushes that name again, so the file
list ends as ["styles.css", "styles.css"]. -/
theorem c1_counterexample :
    (cssSplit cssTwoRules 4000).length = 1 ∧
    (chunksMapping interpId ⟨4000, ImportsMode.fileName, "[name]-[part].[ext]", false⟩
        (some "/foo") tableA [["styles.css"]]).2 = [["styles.css", "styles.css"]] := by
  decide

/-- C1 amended: for an asset whose split produces exactly one segment,
processing leaves the asset table and the chunk's file list completely
unchanged PROVIDED the imports policy is disabled; with imports enabled
the policy step still registers the single-segment artifact and appends
its name. -/
theorem c1_unsplit_noop (interp : String → String → String → String)
    (opts : NOptions) (pp : String) (st : RwState) (e : Entry)
    (hlen : e.chunks.length = 1)
    (himp : opts.imports = ImportsMode.disabled) :
    processEntry interp opts pp st e = st := by
  unfold processEntry
  rw [if_pos hlen]
  rw [importsStep_of_none]
  · apply preserveStep_of_keeping
    intro h
    omega
  · simp [importsRegisteredName, importsName, himp]

/-- Witness for the amended C1: a one-segment asset with imports disabled
is a perfect no-op. -/
theorem c1_unsplit_noop_witness :
    processEntry interpId ⟨4000, ImportsMode.disabled, "[name]-[part].[ext]", false⟩
        "/foo" ⟨tableA, ["styles.css"]⟩
        (fileSplit interpId ⟨4000, ImportsMode.disabled, "[name]-[part].[ext]", false⟩
          "styles.css" cssTwoRules) =
      ⟨tableA, ["styles.css"]⟩ :=
  c1_unsplit_noop interpId ⟨4000, ImportsMode.disabled, "[name]-[part].[ext]", false⟩
    "/foo" ⟨tableA, ["styles.css"]⟩
    (fileSplit interpId ⟨4000, ImportsMode.disabled, "[name]-[part].[ext]", false⟩
      "styles.css" cssTwoRules)
    (by decide) rfl

/-- Counterexample to C2 as stated: with `preserve: false` but `imports:
true` (normalised to the entry-file-name policy) a splitting asset's
original name is re-registered by the imports step — it holds the
aggregation artifact and is back in the chunk's file list after
processing completes. -/
theorem c2_counterexample :
    1 < (cssSplit cssTwoRules 1).length ∧
    ((chunksMapping interpId ⟨1, ImportsMode.fileName, "part-[part].css", false⟩
        (some "/foo") tableA [["styles.css"]]).1 "styles.css").isSome = true ∧
    (chunksMapping interpId ⟨1, ImportsMode.fileName, "part-[part].css", false⟩
        (some "/foo") tableA [["styles.css"]]).2 =
      [["part-1.css", "part-2.css", "styles.css"]] := by
  decide

/-- C2 amended: with `preserve = false` and a split into more than one
segment, the original asset's name is absent from the asset table and the
chunk's file list after the entry is processed, PROVIDED the original
name occurred at most once in the file list, no split part's full path
collides with it, and the imports policy does not register the
aggregation artifact under it (in particular whenever imports are
disabled). -/
theorem c2_original_removed (interp : String → String → String → String)
    (opts : NOptions) (pp : String) (st : RwState) (e : Entry)
    (hpres : opts.preserve = false)
    (hlen : 1 < e.chunks.length)
    (hcount : st.files.count e.file ≤ 1)
    (hparts : ∀ p ∈ e.chunks, p.fullname ≠ e.file)
    (himp : importsRegisteredName interp opts.imports e
      (importsFileOf pp e).content ≠ some e.file) :
    (processEntry interp opts pp st e).assets e.file = none ∧
      e.file ∉ (processEntry interp opts pp st e).files := by
  have hne1 : e.chunks.length ≠ 1 := by omega
  have hnotmem : e.file ∉ e.chunks.map PartFile.fullname := by
    intro hmem
    rcases List.mem_map.mp hmem with ⟨p, hp, heq⟩
    exact hparts p hp heq
  simp only [processEntry]
  rw [if_neg hne1, preserveStep_of_removing _ _ _ hlen hpres]
  have hassets2 : delAsset (injectParts e.chunks st).assets e.file e.file = none := by
    simp [delAsset]
  have hcount1 : (injectParts e.chunks st).files.count e.file ≤ 1 := by
    rw [injectParts_files, List.count_append]
    have h0 : (e.chunks.map PartFile.fullname).count e.file = 0 :=
      List.count_eq_zero.mpr hnotmem
    omega
  have hfiles2 :
      (spliceIndexOf (injectParts e.chunks st).files e.file).count e.file = 0 := by
    unfold spliceIndexOf
    by_cases hm : e.file ∈ (injectParts e.chunks st).files
    · rw [if_pos hm, List.count_erase_self]
      have hpos := List.count_pos_iff.mpr hm
      omega
    · rw [if_neg hm]
      have h0 : (injectParts e.chunks st).files.count e.file = 0 :=
        List.count_eq_zero.mpr hm
      have hle := (List.dropLast_sublist (injectParts e.chunks st).files).count_le e.file
      omega
  cases hr : importsRegisteredName interp opts.imports e
      (importsFileOf pp e).content with
  | none =>
    rw [importsStep_of_none _ _ _ _ _ hr]
    exact ⟨hassets2, List.count_eq_zero.mp hfiles2⟩
  | some full =>
    have hfull : full ≠ e.file := fun h => himp (h ▸ hr)
    rw [importsStep_of_some _ _ _ _ _ _ hr]
    constructor
    · show setAsset _ full _ e.file = none
      simp only [setAsset]
      rw [if_neg (fun h => hfull h.symm)]
      exact hassets2
    · intro hmem
      rcases List.mem_append.mp hmem with h | h
      · exact (List.count_eq_zero.mp hfiles2) h
      · rcases List.mem_singleton.mp h with h
        exact hfull h.symm

/-- Witness for the amended C2: imports disabled, two-part split, the
original name vanishes from table and file list. -/
theorem c2_original_removed_witness :
    (processEntry interpId ⟨1, ImportsMode.disabled, "part-[part].css", false⟩ "/foo"
        ⟨tableA, ["styles.css"]⟩
        (fileSplit interpId ⟨1, ImportsMode.disabled, "part-[part].css", false⟩
          "styles.css" cssTwoRules)).assets "styles.css" = none ∧
    "styles.css" ∉
      (processEntry interpId ⟨1, ImportsMode.disabled, "part-[part].css", false⟩ "/foo"
        ⟨tableA, ["styles.css"]⟩
        (fileSplit interpId ⟨1, ImportsMode.disabled, "part-[part].css", false⟩
          "styles.css" cssTwoRules)).files :=
  c2_original_removed interpId ⟨1, ImportsMode.disabled, "part-[part].css", false⟩
    "/foo" ⟨tableA, ["styles.css"]⟩
    (fileSplit interpId ⟨1, ImportsMode.disabled, "part-[part].css", false⟩
      "styles.css" cssTwoRules)
    rfl (by decide) (by decide) (by decide) (by decide)

/-- Counterexample to C7 as stated: with `preserve: true` but a custom
imports name equal to the original asset's own name (`imports:
"styles.css"`), the imports step overwrites the original artifact with
the aggregation content, so the name survives but its content changes. -/
theorem c7_counterexample :
    tableA "styles.css" = some ⟨cssTwoRules⟩ ∧
    ((chunksMapping interpId ⟨1, ImportsMode.interpolator "styles.css", "part-[part].css", true⟩
        (some "/foo") tableA [["styles.css"]]).1 "styles.css") ≠
      some ⟨cssTwoRules⟩ := by
  decide

/-- C7 amended: with `preserve = true` the original asset's name keeps
its original artifact (same content) and stays in the chunk's file list,
PROVIDED no split part's full path collides with the original name and
the imports policy does not register the aggregation artifact under the
original name (both hold for the default part-name template and the
default imports names). -/
theorem c7_preserve_keeps_original (interp : String → String → String → String)
    (opts : NOptions) (pp : String) (st : RwState) (e : Entry) (a : Artifact)
    (hpres : opts.preserve = true)
    (horig : st.assets e.file = some a)
    (hfiles : e.file ∈ st.files)
    (hparts : ∀ p ∈ e.chunks, p.fullname ≠ e.file)
    (himp : importsRegisteredName interp opts.imports e
      (importsFileOf pp e).content ≠ some e.file) :
    (processEntry interp opts pp st e).assets e.file = some a ∧
      e.file ∈ (processEntry interp opts pp st e).files := by
  have hnotmem : e.file ∉ e.chunks.map PartFile.fullname := by
    intro hmem
    rcases List.mem_map.mp hmem with ⟨p, hp, heq⟩
    exact hparts p hp heq
  simp only [processEntry]
  rw [preserveStep_of_keeping _ _ _ (by simp [hpres])]
  have hassets1 :
      (if e.chunks.length = 1 then st else injectParts e.chunks st).assets e.file
        = some a := by
    by_cases h1 : e.chunks.length = 1
    · rw [if_pos h1]; exact horig
    · rw [if_neg h1, injectParts_assets_frame _ _ _ hnotmem]; exact horig
  have hfiles1 :
      e.file ∈ (if e.chunks.length = 1 then st else injectParts e.chunks st).files := by
    by_cases h1 : e.chunks.length = 1
    · rw [if_pos h1]; exact hfiles
    · rw [if_neg h1, injectParts_files]
      exact List.mem_append.mpr (Or.inl hfiles)
  cases hr : importsRegisteredName interp opts.imports e
      (importsFileOf pp e).content with
  | none =>
    rw [importsStep_of_none _ _ _ _ _ hr]
    exact ⟨hassets1, hfiles1⟩
  | some full =>
    have hfull : full ≠ e.file := fun h => himp (h ▸ hr)
    rw [importsStep_of_some _ _ _ _ _ _ hr]
    constructor
    · show setAsset _ full _ e.file = some a
      simp only [setAsset]
      rw [if_neg (fun h => hfull h.symm)]
      exact hassets1
    · exact List.mem_append.mpr (Or.inl hfiles1)

/-- Witness for the amended C7: preserve keeps `styles.css` intact across
a two-part split with the default `[name]-split.[ext]` imports name. -/
theorem c7_preserve_keeps_original_witness :
    (processEntry interpId
        ⟨1, ImportsMode.interpolator "styles-split.css", "part-[part].css", true⟩ "/foo"
        ⟨tableA, ["styles.css"]⟩
        (fileSplit interpId
          ⟨1, ImportsMode.interpolator "styles-split.css", "part-[part].css", true⟩
          "styles.css" cssTwoRules)).assets "styles.css" = some ⟨cssTwoRules⟩ ∧
    "styles.css" ∈
      (processEntry interpId
        ⟨1, ImportsMode.interpolator "styles-split.css", "part-[part].css", true⟩ "/foo"
        ⟨tableA, ["styles.css"]⟩
        (fileSplit interpId
          ⟨1, ImportsMode.interpolator "styles-split.css", "part-[part].css", true⟩
          "styles.css" cssTwoRules)).files :=
  c7_preserve_keeps_original interpId
    ⟨1, ImportsMode.interpolator "styles-split.css", "part-[part].css", true⟩ "/foo"
    ⟨tableA, ["styles.css"]⟩
    (fileSplit interpId
      ⟨1, ImportsMode.interpolator "styles-split.css", "part-[part].css", true⟩
      "styles.css" cssTwoRules)
    ⟨cssTwoRules⟩ rfl (by decide) (by decide) (by decide) (by decide)

/-- Counterexample to C10 as stated: processing can clobber a non-CSS
asset-table entry — with the constant part-name template "app.js"
(`interpolateName` returns a placeholder-free template verbatim) both
split parts of `a.css` are registered under the name `app.js`,
overwriting the script asset of that name. -/
theorem c10_counterexample :
    isCSS "app.js" = false ∧
    tableB "app.js" = some ⟨"var x;"⟩ ∧
    ((chunksMapping interpId ⟨1, ImportsMode.disabled, "app.js", false⟩
        (some "/foo") tableB [["a.css", "app.js"]]).1 "app.js") =
      some ⟨"b\x7b\x7d"⟩ := by
  decide

/-- C10 amended: an asset name is selected for splitting exactly when it
ends in ".css"; and an asset-table entry whose name does not end in
".css" keeps its artifact and stays in its chunk's file list, PROVIDED
the naming collaborator's outputs avoid that name (no split part's full
path and no registered imports name equals it) and the processed asset's
own name is present in the file list. -/
theorem c10_noncss_untouched (interp : String → String → String → String)
    (opts : NOptions) (pp : String) (st : RwState) (e : Entry) (name : String)
    (hcssE : isCSS e.file = true)
    (hn : isCSS name = false)
    (hfileIn : e.file ∈ st.files)
    (hparts : ∀ p ∈ e.chunks, p.fullname ≠ name)
    (himp : importsRegisteredName interp opts.imports e
      (importsFileOf pp e).content ≠ some name) :
    (∀ m fs, m ∈ chunkCssInput fs ↔ m ∈ fs ∧ isCSS m = true) ∧
    (processEntry interp opts pp st e).assets name = st.assets name ∧
    (name ∈ st.files → name ∈ (processEntry interp opts pp st e).files) := by
  have hne : name ≠ e.file := by
    intro h
    rw [h, hcssE] at hn
    cases hn
  have hnotmem : name ∉ e.chunks.map PartFile.fullname := by
    intro hmem
    rcases List.mem_map.mp hmem with ⟨p, hp, heq⟩
    exact hparts p hp heq
  refine ⟨fun m fs => by simp [chunkCssInput, List.mem_filter], ?_⟩
  simp only [processEntry]
  have hassets1 :
      (if e.chunks.length = 1 then st else injectParts e.chunks st).assets name
        = st.assets name := by
    by_cases h1 : e.chunks.length = 1
    · rw [if_pos h1]
    · rw [if_neg h1, injectParts_assets_frame _ _ _ hnotmem]
  have hfiles1 : name ∈ st.files →
      name ∈ (if e.chunks.length = 1 then st else injectParts e.chunks st).files := by
    intro h
    by_cases h1 : e.chunks.length = 1
    · rw [if_pos h1]; exact h
    · rw [if_neg h1, injectParts_files]
      exact List.mem_append.mpr (Or.inl h)
  have hfileIn1 :
      e.file ∈ (if e.chunks.length = 1 then st else injectParts e.chunks st).files := by
    by_cases h1 : e.chunks.length = 1
    · rw [if_pos h1]; exact hfileIn
    · rw [if_neg h1, injectParts_files]
      exact List.mem_append.mpr (Or.inl hfileIn)
  have hassets2 :
      (preserveStep opts.preserve e
        (if e.chunks.length = 1 then st else injectParts e.chunks st)).assets name
        = st.assets name := by
    by_cases hrem : 1 < e.chunks.length ∧ opts.preserve = false
    · rw [preserveStep_of_removing _ _ _ hrem.1 hrem.2]
      show delAsset _ e.file name = _
      simp only [delAsset]
      rw [if_neg hne]
      exact hassets1
    · rw [preserveStep_of_keeping _ _ _ hrem]
      exact hassets1
  have hfiles2 : name ∈ st.files →
      name ∈ (preserveStep opts.preserve e
        (if e.chunks.length = 1 then st else injectParts e.chunks st)).files := by
    intro h
    by_cases hrem : 1 < e.chunks.length ∧ opts.preserve = false
    · rw [preserveStep_of_removing _ _ _ hrem.1 hrem.2]
      show name ∈ spliceIndexOf _ e.file
      unfold spliceIndexOf
      rw [if_pos hfileIn1]
      exact (List.mem_erase_of_ne hne).mpr (hfiles1 h)
    · rw [preserveStep_of_keeping _ _ _ hrem]
      exact hfiles1 h
  cases hr : importsRegisteredName interp opts.imports e
      (importsFileOf pp e).content with
  | none =>
    rw [importsStep_of_none _ _ _ _ _ hr]
    exact ⟨hassets2, hfiles2⟩
  | some full =>
    have hfull : full ≠ name := fun h => himp (h ▸ hr)
    rw [importsStep_of_some _ _ _ _ _ _ hr]
    constructor
    · show setAsset _ full _ name = _
      simp only [setAsset]
      rw [if_neg (fun h => hfull h.symm)]
      exact hassets2
    · intro h
      exact List.mem_append.mpr (Or.inl (hfiles2 h))

/-- Witness for the amended C10: with the default-shaped part template,
the script asset `app.js` is untouched when `a.css` is split. -/
theorem c10_noncss_untouched_witness :
    (processEntry interpId ⟨1, ImportsMode.disabled, "part-[part].css", false⟩ "/foo"
        ⟨tableB, ["a.css", "app.js"]⟩
        (fileSplit interpId ⟨1, ImportsMode.disabled, "part-[part].css", false⟩
          "a.css" cssTwoRules)).assets "app.js" =
      (RwState.mk tableB ["a.css", "app.js"]).assets "app.js" :=
  (c10_noncss_untouched interpId ⟨1, ImportsMode.disabled, "part-[part].css", false⟩
    "/foo" ⟨tableB, ["a.css", "app.js"]⟩
    (fileSplit interpId ⟨1, ImportsMode.disabled, "part-[part].css", false⟩
      "a.css" cssTwoRules)
    "app.js" (by decide) (by decide) (by decide) (by decide) (by decide)).2.1
